import Mathlib

/-!
Shallow embedding of the autocompleter's core: the SQLite-backed context
store (`src/autocompleter/context_store.py`), the suggestion engine with
its debounce and response parser (`src/autocompleter/suggestion_engine.py`),
the overlay selection state (`src/autocompleter/overlay.py`), and the
worker-result delivery step of the orchestrator
(`src/autocompleter/app.py`, `Autocompleter._generate_and_show`).

Modelling conventions:
* Python float timestamps (seconds) are modelled as rationals `ℚ`.
* The SQLite table `context_entries` is a list of rows in rowid
  (insertion) order together with the AUTOINCREMENT counter.
* `ORDER BY timestamp DESC/ASC` is modelled as a stable sort over the
  table order: rows of equal timestamp keep rowid order.
* Python's `str.strip`/`str.split` are modelled character-exactly for a
  non-empty separator (`pyStrip`, `pySplit`).
* The provider call inside `generate_suggestions` is external I/O; its
  outcome (raw response text, or an exception) is an argument of the
  embedded function, exactly as the surrounding control flow consumes it.
-/

/-- One row of the `context_entries` table
(`src/autocompleter/context_store.py`, `ContextEntry` / `_create_tables`). -/
structure ContextEntry where
  id : ℕ
  source_app : String
  source_url : String
  content : String
  timestamp : ℚ
  entry_type : String
deriving DecidableEq

/-- The store state: the table in rowid (insertion) order, plus the next
AUTOINCREMENT id. -/
structure ContextStore where
  entries : List ContextEntry
  next_id : ℕ
deriving DecidableEq

/-- One step of a stable descending-timestamp insertion sort: `e` goes in
front of the first element whose timestamp is not larger, so rows of equal
timestamp keep their original (rowid) order. -/
def insertDesc (e : ContextEntry) : List ContextEntry → List ContextEntry
  | [] => [e]
  | x :: xs => if e.timestamp < x.timestamp then x :: insertDesc e xs else e :: x :: xs

/-- `ORDER BY timestamp DESC`: stable sort of the table by descending
timestamp (ties keep rowid order). -/
def sortDescTs (l : List ContextEntry) : List ContextEntry := l.foldr insertDesc []

/-- One step of a stable ascending-timestamp insertion sort. -/
def insertAsc (e : ContextEntry) : List ContextEntry → List ContextEntry
  | [] => [e]
  | x :: xs => if x.timestamp < e.timestamp then x :: insertAsc e xs else e :: x :: xs

/-- `ORDER BY timestamp ASC`: stable sort of the table by ascending
timestamp (ties keep rowid order). -/
def sortAscTs (l : List ContextEntry) : List ContextEntry := l.foldr insertAsc []

/-- `ContextStore.add_entry`: skip (returning the sentinel `-1`) when a row
with the same content and source app has a timestamp newer than
`timestamp - 5.0`; otherwise insert the row and return its id. -/
def add_entry (st : ContextStore) (source_app content entry_type source_url : String)
    (timestamp : ℚ) : ContextStore × ℤ :=
  if st.entries.any (fun e =>
      decide (e.content = content ∧ e.source_app = source_app ∧
        timestamp - 5 < e.timestamp)) then
    (st, -1)
  else
    ({ entries := st.entries ++
        [{ id := st.next_id, source_app := source_app, source_url := source_url,
           content := content, timestamp := timestamp, entry_type := entry_type }],
       next_id := st.next_id + 1 },
     (st.next_id : ℤ))

/-- `ContextStore.get_recent`: the `limit` most recent entries, newest first. -/
def get_recent (st : ContextStore) (limit : ℕ) : List ContextEntry :=
  (sortDescTs st.entries).take limit

/-- `ContextStore.get_by_source`: the `limit` most recent entries of one
source app, newest first. -/
def get_by_source (st : ContextStore) (source_app : String) (limit : ℕ) :
    List ContextEntry :=
  (sortDescTs (st.entries.filter (fun e => e.source_app == source_app))).take limit

/-- The same-app line format of `get_sliced_context`:
`f"[{entry.entry_type}] {entry.content}"`. -/
def fmtSame (e : ContextEntry) : String := "[" ++ e.entry_type ++ "] " ++ e.content

/-- The cross-app line format of `get_sliced_context`:
`f"[{entry.source_app}] {entry.content}"`. -/
def fmtCross (e : ContextEntry) : String := "[" ++ e.source_app ++ "] " ++ e.content

/-- The greedy fill loop of `get_sliced_context`: starting from `used`
already-consumed characters, append whole lines while they fit the budget
and stop at the first line that would overflow (`if total_chars +
len(line) > max_chars: break`). -/
def fill (used max_chars : ℕ) : List String → List String
  | [] => []
  | line :: rest =>
    if max_chars < used + line.length then []
    else line :: fill (used + line.length) max_chars rest

/-- Total character count of a list of lines (newline separators excluded,
exactly like the loop's `total_chars`). -/
def sumLens (l : List String) : ℕ := (l.map String.length).sum

/-- The lines `get_sliced_context` assembles: same-app lines first
(20 most recent of the source app), then, if budget remains
(`total_chars < max_chars`), cross-app lines from the 30 most recent
entries of other apps, under the same stop-on-overflow rule. -/
def slicedLines (st : ContextStore) (source_app : String) (max_chars : ℕ) :
    List String :=
  let sameLines := fill 0 max_chars ((get_by_source st source_app 20).map fmtSame)
  let used := sumLens sameLines
  if used < max_chars then
    sameLines ++ fill used max_chars
      (((get_recent st 30).filter (fun e => !(e.source_app == source_app))).map fmtCross)
  else sameLines

/-- Python's `"\n".join(parts)`. -/
def joinLines : List String → String
  | [] => ""
  | [l] => l
  | l :: l2 :: rest => l ++ "\n" ++ joinLines (l2 :: rest)

/-- `ContextStore.get_sliced_context`. -/
def get_sliced_context (st : ContextStore) (source_app : String) (max_chars : ℕ) :
    String :=
  joinLines (slicedLines st source_app max_chars)

/-- `ContextStore.prune`: delete rows older than `now - max_age_hours*3600`;
then, if the remaining count exceeds `max_entries`, delete the first
`count - max_entries` rows of the ascending-timestamp order. Returns the
surviving store and the removed count (`rowcount` of the age sweep plus the
computed `excess`). -/
def prune (st : ContextStore) (now max_age_hours : ℚ) (max_entries : ℕ) :
    ContextStore × ℕ :=
  let cutoff := now - max_age_hours * 3600
  let kept1 := st.entries.filter (fun e => decide (¬ e.timestamp < cutoff))
  let removed1 := st.entries.length - kept1.length
  if max_entries < kept1.length then
    let excess := kept1.length - max_entries
    let doomed := ((sortAscTs kept1).take excess).map ContextEntry.id
    ({ st with entries := kept1.filter (fun e => decide (e.id ∉ doomed)) },
     removed1 + excess)
  else
    ({ st with entries := kept1 }, removed1)

/-- `ContextStore.entry_count`: `SELECT COUNT(*)`. -/
def entry_count (st : ContextStore) : ℕ := st.entries.length

/-- The characters Python's `str.strip()` removes. -/
def isPySpace (c : Char) : Bool :=
  c == ' ' || c == '\t' || c == '\n' || c == '\r' || c == '\x0b' || c == '\x0c'

/-- Python's `str.strip()`: drop leading and trailing whitespace. -/
def pyStrip (s : String) : String :=
  String.mk (((s.toList.dropWhile isPySpace).reverse.dropWhile isPySpace).reverse)

/-- `a` begins with `pat` (character-wise). -/
def leadsWith : List Char → List Char → Bool
  | [], _ => true
  | _ :: _, [] => false
  | a :: as, b :: bs => a == b && leadsWith as bs

/-- Worker for `pySplit`: scan left to right, cutting at every leftmost
non-overlapping occurrence of `sep`. `fuel` bounds the recursion; every
step consumes at least one character, so `length + 1` fuel is exact. -/
def splitFuel (sep : List Char) : ℕ → List Char → List Char → List (List Char)
  | 0, s, acc => [acc.reverse ++ s]
  | fuel + 1, s, acc =>
    match s with
    | [] => [acc.reverse]
    | c :: rest =>
      if leadsWith sep (c :: rest) then
        acc.reverse :: splitFuel sep fuel (List.drop (sep.length - 1) rest) []
      else
        splitFuel sep fuel rest (c :: acc)

/-- Python's `s.split(sep)` for a non-empty separator: split at every
leftmost non-overlapping occurrence, keeping empty segments
(`"".split(x) == [""]`). -/
def pySplit (s sep : String) : List String :=
  (splitFuel sep.toList (s.toList.length + 1) s.toList []).map String.mk

/-- A parsed suggestion (`src/autocompleter/suggestion_engine.py`,
`Suggestion`): text plus the index the parser assigned. -/
structure Suggestion where
  text : String
  index : ℕ
deriving DecidableEq

/-- The `for i, part in enumerate(parts)` loop of `_parse_suggestions`:
strip each part, keep the non-blank ones, and record the enumeration
position `i` as `index`. -/
def parseFrom (i : ℕ) : List String → List Suggestion
  | [] => []
  | p :: ps =>
    let t := pyStrip p
    if t.isEmpty then parseFrom (i + 1) ps
    else { text := t, index := i } :: parseFrom (i + 1) ps

/-- `SuggestionEngine._parse_suggestions`: split the raw response on the
delimiter and keep the stripped non-blank parts. -/
def parse_suggestions (raw_text : String) : List Suggestion :=
  parseFrom 0 (pySplit raw_text "---SUGGESTION---")

/-- The configuration fields the suggestion engine's control flow reads
(`src/autocompleter/config.py`): the provider name and the debounce
interval in milliseconds. -/
structure Config where
  llm_provider : String
  debounce_ms : ℚ
deriving DecidableEq

/-- The engine's mutable state: `_last_request_time`, initially `0.0`. -/
structure EngineState where
  last_request_time : ℚ
deriving DecidableEq

/-- A fresh `SuggestionEngine`: `_last_request_time = 0.0`. -/
def engineInit : EngineState := { last_request_time := 0 }

/-- `SuggestionEngine.can_request`:
`(now - self._last_request_time) * 1000 >= self.config.debounce_ms`. -/
def can_request (cfg : Config) (st : EngineState) (now : ℚ) : Bool :=
  decide (cfg.debounce_ms ≤ (now - st.last_request_time) * 1000)

/-- What the external provider call did: returned a raw response text, or
raised (network error, malformed response, ...). -/
inductive GenOutcome where
  | ok (raw_text : String)
  | err
deriving DecidableEq

/-- `SuggestionEngine.generate_suggestions` at time `now`: reject when the
debounce check fails, reject blank input, otherwise commit
`_last_request_time = now` and dispatch on the provider; an unknown
provider or a raised exception yields the empty list. `context` and
`app_name` only feed the prompt text, which the control flow never reads
back. -/
def generate_suggestions (cfg : Config) (st : EngineState) (now : ℚ)
    (current_input _context _app_name : String) (outcome : GenOutcome) :
    EngineState × List Suggestion :=
  if !(can_request cfg st now) then (st, [])
  else if (pyStrip current_input).isEmpty then (st, [])
  else
    let committed : EngineState := { last_request_time := now }
    if cfg.llm_provider == "anthropic" || cfg.llm_provider == "openai" then
      match outcome with
      | .ok raw_text => (committed, parse_suggestions raw_text)
      | .err => (committed, [])
    else (committed, [])

/-- The overlay's suggestion-selection state
(`src/autocompleter/overlay.py`, `SuggestionOverlay`): `_suggestions`,
`_selected_index`, `_visible`. -/
structure Overlay where
  suggestions : List Suggestion
  selected_index : ℕ
  visible : Bool
deriving DecidableEq

/-- `SuggestionOverlay.hide`. -/
def Overlay.hide (o : Overlay) : Overlay := { o with visible := false }

/-- The state effect of `SuggestionOverlay.show`: store the list, reset the
selection to 0, hide when the list is empty, otherwise become visible. -/
def Overlay.show (o : Overlay) (sugs : List Suggestion) : Overlay :=
  let o1 := { o with suggestions := sugs, selected_index := 0 }
  if sugs.isEmpty then o1.hide else { o1 with visible := true }

/-- `SuggestionOverlay.move_selection`: no-op on an empty list, else
`selected_index = (selected_index + delta) % len(suggestions)` (Python `%`,
i.e. the result has the sign of the positive modulus). -/
def Overlay.move_selection (o : Overlay) (delta : ℤ) : Overlay :=
  if o.suggestions.isEmpty then o
  else { o with selected_index :=
    (((o.selected_index : ℤ) + delta) % (o.suggestions.length : ℤ)).toNat }

/-- The orchestrator state a generation result touches
(`src/autocompleter/app.py`): `_current_suggestions` plus the overlay. -/
structure AppState where
  current_suggestions : List Suggestion
  overlay : Overlay
deriving DecidableEq

/-- The tail of `Autocompleter._generate_and_show`, as delivered on the
serialized main queue: an empty result changes nothing; a non-empty result
overwrites `_current_suggestions` and shows the overlay with it. There is
no correlation-token check anywhere on this path. -/
def deliver_result (s : AppState) (sugs : List Suggestion) : AppState :=
  if sugs.isEmpty then s
  else { current_suggestions := sugs, overlay := s.overlay.show sugs }

/-- The rows surviving the age sweep of `prune`. -/
def ageKept (st : ContextStore) (now max_age_hours : ℚ) : List ContextEntry :=
  st.entries.filter (fun e => decide (¬ e.timestamp < now - max_age_hours * 3600))

/-- A handy constructor for concrete stores: id, app, type, content,
timestamp, empty url. -/
def mkE (i : ℕ) (app ty c : String) (ts : ℚ) : ContextEntry :=
  ⟨i, app, "", c, ts, ty⟩

/-- A concrete store of seven same-app entries whose formatted lines are
five characters each. -/
def stSeven : ContextStore :=
  ⟨[mkE 1 "A" "t" "a" 1, mkE 2 "A" "t" "b" 2, mkE 3 "A" "t" "c" 3,
    mkE 4 "A" "t" "d" 4, mkE 5 "A" "t" "e" 5, mkE 6 "A" "t" "f" 6,
    mkE 7 "A" "t" "g" 7], 8⟩

/-- A concrete 3-item overlay in the Showing state with selection 0. -/
def ovThree : Overlay := ⟨[⟨"x", 0⟩, ⟨"y", 1⟩, ⟨"z", 2⟩], 0, true⟩

/-- The configuration the debounce witnesses use: provider `anthropic`,
500 ms debounce. -/
def cfg500 : Config := ⟨"anthropic", 500⟩

/-! ### Helper lemmas about the stable timestamp sorts -/

/-- Strict lexicographic order on (timestamp, id): what "oldest first,
ties by ascending id" means. -/
def tsIdLt (a b : ContextEntry) : Prop :=
  a.timestamp < b.timestamp ∨ (a.timestamp = b.timestamp ∧ a.id < b.id)

/-- The store invariant AUTOINCREMENT maintains: row ids strictly increase
in table order. -/
def idsAscending (l : List ContextEntry) : Prop :=
  l.Pairwise (fun a b => a.id < b.id)

theorem insertAsc_perm (e : ContextEntry) (l : List ContextEntry) :
    (insertAsc e l).Perm (e :: l) := by
  induction l with
  | nil => simp [insertAsc]
  | cons x xs ih =>
    by_cases h : x.timestamp < e.timestamp
    · simpa [insertAsc, h] using ((ih.cons x).trans (List.Perm.swap e x xs))
    · simp [insertAsc, h]

theorem sortAscTs_perm (l : List ContextEntry) : (sortAscTs l).Perm l := by
  induction l with
  | nil => simp [sortAscTs]
  | cons e xs ih =>
    exact (insertAsc_perm e (sortAscTs xs)).trans (ih.cons e)

theorem insertAsc_pairwise (e : ContextEntry) (l : List ContextEntry)
    (hp : l.Pairwise tsIdLt) (hid : ∀ x ∈ l, e.id < x.id) :
    (insertAsc e l).Pairwise tsIdLt := by
  induction l with
  | nil => simp [insertAsc, List.pairwise_singleton]
  | cons x xs ih =>
    rcases List.pairwise_cons.mp hp with ⟨hx, hxs⟩
    by_cases h : x.timestamp < e.timestamp
    · rw [insertAsc, if_pos h]
      refine List.pairwise_cons.mpr ⟨?_, ih hxs (fun y hy => hid y (List.mem_cons_of_mem x hy))⟩
      intro y hy
      rcases List.mem_cons.mp (((insertAsc_perm e xs).mem_iff).mp hy) with rfl | hy
      · exact Or.inl h
      · exact hx y hy
    · rw [insertAsc, if_neg h]
      refine List.pairwise_cons.mpr ⟨?_, hp⟩
      intro y hy
      rcases List.mem_cons.mp hy with rfl | hy
      · rcases lt_or_eq_of_le (not_lt.mp h) with hlt | heq
        · exact Or.inl hlt
        · exact Or.inr ⟨heq, hid y (List.mem_cons_self y xs)⟩
      · rcases hx y hy with hlt | ⟨heq, _⟩
        · rcases lt_or_eq_of_le (not_lt.mp h) with hlt2 | heq2
          · exact Or.inl (lt_trans hlt2 hlt)
          · exact Or.inl (heq2 ▸ hlt)
        · rcases lt_or_eq_of_le (not_lt.mp h) with hlt2 | heq2
          · exact Or.inl (heq ▸ hlt2)
          · exact Or.inr ⟨heq2.trans heq, hid y (List.mem_cons_of_mem x hy)⟩

theorem sortAscTs_pairwise (l : List ContextEntry) (h : idsAscending l) :
    (sortAscTs l).Pairwise tsIdLt := by
  induction l with
  | nil => simp [sortAscTs]
  | cons e xs ih =>
    rcases List.pairwise_cons.mp h with ⟨he, hxs⟩
    refine insertAsc_pairwise e (sortAscTs xs) (ih hxs) ?_
    intro x hx
    exact he x ((sortAscTs_perm xs).mem_iff.mp hx)

theorem idsAscending_nodup_map (l : List ContextEntry) (h : idsAscending l) :
    (l.map ContextEntry.id).Nodup := by
  exact List.pairwise_map.mpr (h.imp (fun hab => ne_of_lt hab))

/-- The count sweep of `prune`, deleting the first `k` rows of the stable
ascending-timestamp order, leaves (a permutation of) exactly the remaining
rows of that order. -/
theorem sweep_perm (l : List ContextEntry) (k : ℕ)
    (hid : (l.map ContextEntry.id).Nodup) :
    (l.filter (fun e =>
        decide (e.id ∉ (((sortAscTs l).take k).map ContextEntry.id)))).Perm
      ((sortAscTs l).drop k) := by
  set p : ContextEntry → Bool :=
    fun e => decide (e.id ∉ (((sortAscTs l).take k).map ContextEntry.id)) with hp
  have hperm : l.Perm (sortAscTs l) := (sortAscTs_perm l).symm
  have h1 : (l.filter p).Perm ((sortAscTs l).filter p) := hperm.filter p
  have hsplit : (sortAscTs l).take k ++ (sortAscTs l).drop k = sortAscTs l :=
    List.take_append_drop k (sortAscTs l)
  have hnodup : ((sortAscTs l).map ContextEntry.id).Nodup :=
    ((hperm.map ContextEntry.id).nodup_iff).mp hid
  have hdisj : (((sortAscTs l).take k).map ContextEntry.id).Disjoint
      (((sortAscTs l).drop k).map ContextEntry.id) := by
    have : ((((sortAscTs l).take k) ++ ((sortAscTs l).drop k)).map ContextEntry.id).Nodup := by
      rw [hsplit]; exact hnodup
    rw [List.map_append] at this
    exact (List.nodup_append.mp this).2.2
  have htake : ((sortAscTs l).take k).filter p = [] := by
    refine List.filter_eq_nil_iff.mpr ?_
    intro e he
    simp only [hp, decide_eq_true_eq, not_not]
    exact List.mem_map_of_mem ContextEntry.id he
  have hdrop : ((sortAscTs l).drop k).filter p = (sortAscTs l).drop k := by
    refine List.filter_eq_self.mpr ?_
    intro e he
    simp only [hp, decide_eq_true_eq]
    exact fun hmem => hdisj hmem (List.mem_map_of_mem ContextEntry.id he)
  calc (l.filter p).Perm ((sortAscTs l).filter p) := h1
    _ = ((sortAscTs l).take k ++ (sortAscTs l).drop k).filter p := by rw [hsplit]
    _ = (sortAscTs l).drop k := by rw [List.filter_append, htake, hdrop, List.nil_append]

theorem prune_eq (st : ContextStore) (now max_age_hours : ℚ) (max_entries : ℕ) :
    prune st now max_age_hours max_entries =
      if max_entries < (ageKept st now max_age_hours).length then
        ({ st with entries := (ageKept st now max_age_hours).filter (fun e =>
              decide (e.id ∉ (((sortAscTs (ageKept st now max_age_hours)).take
                ((ageKept st now max_age_hours).length - max_entries)).map ContextEntry.id))) },
         (st.entries.length - (ageKept st now max_age_hours).length)
           + ((ageKept st now max_age_hours).length - max_entries))
      else
        ({ st with entries := ageKept st now max_age_hours },
         st.entries.length - (ageKept st now max_age_hours).length) := rfl

theorem ageKept_prop (st : ContextStore) (now max_age_hours : ℚ) :
    ∀ e ∈ ageKept st now max_age_hours, ¬ e.timestamp < now - max_age_hours * 3600 := by
  intro e he
  simpa using (List.mem_filter.mp he).2

theorem ageKept_mem (st : ContextStore) (now max_age_hours : ℚ) (e : ContextEntry)
    (he : e ∈ st.entries) (hage : ¬ e.timestamp < now - max_age_hours * 3600) :
    e ∈ ageKept st now max_age_hours :=
  List.mem_filter.mpr ⟨he, by simpa using hage⟩

theorem sweep_length (l : List ContextEntry) (N : ℕ)
    (hid : (l.map ContextEntry.id).Nodup) (hover : N < l.length) :
    (l.filter (fun e => decide (e.id ∉
        (((sortAscTs l).take (l.length - N)).map ContextEntry.id)))).length = N := by
  rw [(sweep_perm l (l.length - N) hid).length_eq, List.length_drop,
    (sortAscTs_perm l).length_eq]
  omega

/-- C3: after `prune(maxAgeHours=H, maxEntries=N)`, the entry count is at
most `N`, no surviving entry is older than `now - H*3600`, and the returned
count equals the total number of entries the two phases deleted. The
hypothesis is the AUTOINCREMENT table invariant (ids strictly increase in
table order). -/
theorem prune_bounds_and_return (st : ContextStore) (now H : ℚ) (N : ℕ)
    (hwf : idsAscending st.entries) :
    entry_count (prune st now H N).1 ≤ N ∧
    (∀ e ∈ (prune st now H N).1.entries, ¬ e.timestamp < now - H * 3600) ∧
    (prune st now H N).2 = entry_count st - entry_count (prune st now H N).1 := by
  have hlen_le : (ageKept st now H).length ≤ st.entries.length :=
    List.length_filter_le _ _
  have hid : ((ageKept st now H).map ContextEntry.id).Nodup :=
    idsAscending_nodup_map _ (hwf.filter _)
  rw [prune_eq]
  by_cases hover : N < (ageKept st now H).length
  · rw [if_pos hover]
    have hlen := sweep_length (ageKept st now H) N hid hover
    refine ⟨?_, ?_, ?_⟩
    · simpa [entry_count] using le_of_eq hlen
    · intro e he
      exact ageKept_prop st now H e (List.mem_filter.mp he).1
    · simp only [entry_count] at *
      rw [hlen]
      omega
  · rw [if_neg hover]
    refine ⟨?_, ?_, ?_⟩
    · simpa [entry_count] using le_of_not_lt hover
    · intro e he
      exact ageKept_prop st now H e he
    · simp [entry_count]

/-- C3 witness: a concrete store with one stale and one fresh entry,
pruned with `H = 1`, `N = 5` at `now = 10000`: the count bound, the age
bound, and the returned total (here 1) all hold. -/
theorem prune_bounds_and_return_witness :
    (entry_count (prune ⟨[mkE 1 "A" "t" "old" 0, mkE 2 "A" "t" "new" 9000], 3⟩
        10000 1 5).1 ≤ 5 ∧
      (∀ e ∈ (prune ⟨[mkE 1 "A" "t" "old" 0, mkE 2 "A" "t" "new" 9000], 3⟩
          10000 1 5).1.entries, ¬ e.timestamp < 10000 - 1 * 3600) ∧
      (prune ⟨[mkE 1 "A" "t" "old" 0, mkE 2 "A" "t" "new" 9000], 3⟩ 10000 1 5).2 =
        entry_count ⟨[mkE 1 "A" "t" "old" 0, mkE 2 "A" "t" "new" 9000], 3⟩ -
          entry_count (prune ⟨[mkE 1 "A" "t" "old" 0, mkE 2 "A" "t" "new" 9000], 3⟩
            10000 1 5).1) ∧
    (prune ⟨[mkE 1 "A" "t" "old" 0, mkE 2 "A" "t" "new" 9000], 3⟩ 10000 1 5).2 = 1 := by
  refine ⟨prune_bounds_and_return _ 10000 1 5 ?_, ?_⟩
  · simp [idsAscending, mkE]
  · norm_num [prune_eq, ageKept, mkE, entry_count, List.filter]

/-- C4: when the count sweep runs (the post-age-sweep count exceeds
`maxEntries`), exactly `maxEntries` entries remain, and every entry the
count sweep deleted is strictly older than every survivor in the
(timestamp, then id) lexicographic order — ties between equal timestamps
are broken by ascending id. -/
theorem prune_count_sweep_removes_oldest (st : ContextStore) (now H : ℚ) (N : ℕ)
    (hwf : idsAscending st.entries)
    (hover : N < (ageKept st now H).length) :
    entry_count (prune st now H N).1 = N ∧
    ∀ d ∈ st.entries, ¬ d.timestamp < now - H * 3600 →
      d ∉ (prune st now H N).1.entries →
      ∀ s ∈ (prune st now H N).1.entries,
        d.timestamp < s.timestamp ∨ (d.timestamp = s.timestamp ∧ d.id < s.id) := by
  have hid : ((ageKept st now H).map ContextEntry.id).Nodup :=
    idsAscending_nodup_map _ (hwf.filter _)
  have hpair : (sortAscTs (ageKept st now H)).Pairwise tsIdLt :=
    sortAscTs_pairwise _ (hwf.filter _)
  have hperm := sweep_perm (ageKept st now H) ((ageKept st now H).length - N) hid
  rw [prune_eq, if_pos hover]
  refine ⟨by simpa [entry_count] using sweep_length (ageKept st now H) N hid hover, ?_⟩
  intro d hd hdage hdnot s hs
  have hdA : d ∈ ageKept st now H := ageKept_mem st now H d hd hdage
  have hdsorted : d ∈ sortAscTs (ageKept st now H) :=
    (sortAscTs_perm _).mem_iff.mpr hdA
  have hsplit := List.take_append_drop ((ageKept st now H).length - N)
    (sortAscTs (ageKept st now H))
  have hddrop : d ∉ (sortAscTs (ageKept st now H)).drop
      ((ageKept st now H).length - N) := by
    intro hmem
    exact hdnot (hperm.mem_iff.mpr hmem)
  have hdtake : d ∈ (sortAscTs (ageKept st now H)).take
      ((ageKept st now H).length - N) := by
    rcases List.mem_append.mp (by rw [hsplit]; exact hdsorted) with h | h
    · exact h
    · exact absurd h hddrop
  have hsdrop : s ∈ (sortAscTs (ageKept st now H)).drop
      ((ageKept st now H).length - N) := hperm.mem_iff.mp hs
  have hpair2 := hsplit ▸ hpair
  exact (List.pairwise_append.mp hpair2).2.2 d hdtake s hsdrop

/-- C4 witness: ten entries with strictly increasing timestamps, pruned
with `maxEntries = 5` and a permissive age bound: exactly the five oldest
are deleted and the five newest survive. -/
theorem prune_count_sweep_removes_oldest_witness :
    (entry_count (prune ⟨[mkE 1 "A" "t" "c1" 1, mkE 2 "A" "t" "c2" 2,
        mkE 3 "A" "t" "c3" 3, mkE 4 "A" "t" "c4" 4, mkE 5 "A" "t" "c5" 5,
        mkE 6 "A" "t" "c6" 6, mkE 7 "A" "t" "c7" 7, mkE 8 "A" "t" "c8" 8,
        mkE 9 "A" "t" "c9" 9, mkE 10 "A" "t" "c10" 10], 11⟩ 0 1 5).1 = 5 ∧
      (∀ d ∈ ([mkE 1 "A" "t" "c1" 1, mkE 2 "A" "t" "c2" 2,
        mkE 3 "A" "t" "c3" 3, mkE 4 "A" "t" "c4" 4, mkE 5 "A" "t" "c5" 5,
        mkE 6 "A" "t" "c6" 6, mkE 7 "A" "t" "c7" 7, mkE 8 "A" "t" "c8" 8,
        mkE 9 "A" "t" "c9" 9, mkE 10 "A" "t" "c10" 10] : List ContextEntry),
        ¬ d.timestamp < 0 - 1 * 3600 →
        d ∉ (prune ⟨[mkE 1 "A" "t" "c1" 1, mkE 2 "A" "t" "c2" 2,
          mkE 3 "A" "t" "c3" 3, mkE 4 "A" "t" "c4" 4, mkE 5 "A" "t" "c5" 5,
          mkE 6 "A" "t" "c6" 6, mkE 7 "A" "t" "c7" 7, mkE 8 "A" "t" "c8" 8,
          mkE 9 "A" "t" "c9" 9, mkE 10 "A" "t" "c10" 10], 11⟩ 0 1 5).1.entries →
        ∀ s ∈ (prune ⟨[mkE 1 "A" "t" "c1" 1, mkE 2 "A" "t" "c2" 2,
          mkE 3 "A" "t" "c3" 3, mkE 4 "A" "t" "c4" 4, mkE 5 "A" "t" "c5" 5,
          mkE 6 "A" "t" "c6" 6, mkE 7 "A" "t" "c7" 7, mkE 8 "A" "t" "c8" 8,
          mkE 9 "A" "t" "c9" 9, mkE 10 "A" "t" "c10" 10], 11⟩ 0 1 5).1.entries,
          d.timestamp < s.timestamp ∨ (d.timestamp = s.timestamp ∧ d.id < s.id))) ∧
    (prune ⟨[mkE 1 "A" "t" "c1" 1, mkE 2 "A" "t" "c2" 2,
        mkE 3 "A" "t" "c3" 3, mkE 4 "A" "t" "c4" 4, mkE 5 "A" "t" "c5" 5,
        mkE 6 "A" "t" "c6" 6, mkE 7 "A" "t" "c7" 7, mkE 8 "A" "t" "c8" 8,
        mkE 9 "A" "t" "c9" 9, mkE 10 "A" "t" "c10" 10], 11⟩ 0 1 5).1.entries =
      [mkE 6 "A" "t" "c6" 6, mkE 7 "A" "t" "c7" 7, mkE 8 "A" "t" "c8" 8,
        mkE 9 "A" "t" "c9" 9, mkE 10 "A" "t" "c10" 10] := by
  refine ⟨?_, ?_⟩
  · refine prune_count_sweep_removes_oldest _ 0 1 5 ?_ ?_
    · simp [idsAscending, mkE]
    · norm_num [ageKept, mkE, List.filter]
  · norm_num [prune_eq, ageKept, mkE, sortAscTs, insertAsc, List.filter]

/-- C2: `addEntry` drops the insert (returning the sentinel `-1` and
storing nothing) exactly when some stored entry has the same content and
source app with a timestamp inside the trailing 5-second window; with no
such entry (in particular, the same content under a different source app)
the row is appended and its fresh id returned. -/
theorem add_entry_dedup_thm (st : ContextStore) (a c ty url : String) (ts : ℚ) :
    ((∃ e ∈ st.entries, e.content = c ∧ e.source_app = a ∧ ts - 5 < e.timestamp) →
        add_entry st a c ty url ts = (st, -1)) ∧
    ((∀ e ∈ st.entries, ¬(e.content = c ∧ e.source_app = a ∧ ts - 5 < e.timestamp)) →
        (add_entry st a c ty url ts).1.entries
            = st.entries ++ [⟨st.next_id, a, url, c, ts, ty⟩] ∧
          (add_entry st a c ty url ts).2 = (st.next_id : ℤ)) := by
  constructor
  · rintro ⟨e, he, hprop⟩
    have hany : st.entries.any (fun e =>
        decide (e.content = c ∧ e.source_app = a ∧ ts - 5 < e.timestamp)) = true :=
      List.any_eq_true.mpr ⟨e, he, by simpa using hprop⟩
    simp only [add_entry, hany]
    simp
  · intro h
    have hany : st.entries.any (fun e =>
        decide (e.content = c ∧ e.source_app = a ∧ ts - 5 < e.timestamp)) = false := by
      rw [List.any_eq_false]
      intro e he
      simpa using h e he
    simp only [add_entry, hany]
    simp

/-- C2 witness: with `("c", "A")` stored at time 10, re-inserting
`("c", "A")` at time 12 is skipped with the sentinel, while inserting
`("c", "B")` at time 12 stores a second entry and returns its id. -/
theorem add_entry_dedup_thm_witness :
    add_entry ⟨[mkE 1 "A" "t" "c" 10], 2⟩ "A" "c" "t" "" 12 =
        (⟨[mkE 1 "A" "t" "c" 10], 2⟩, -1) ∧
      (add_entry ⟨[mkE 1 "A" "t" "c" 10], 2⟩ "B" "c" "t" "" 12).1.entries.length = 2 ∧
      (add_entry ⟨[mkE 1 "A" "t" "c" 10], 2⟩ "B" "c" "t" "" 12).2 = 2 := by
  have h1 := (add_entry_dedup_thm ⟨[mkE 1 "A" "t" "c" 10], 2⟩ "A" "c" "t" "" 12).1
    ⟨mkE 1 "A" "t" "c" 10, by simp, by norm_num [mkE]⟩
  have h2 := (add_entry_dedup_thm ⟨[mkE 1 "A" "t" "c" 10], 2⟩ "B" "c" "t" "" 12).2
    (by intro e he; simp [mkE] at he; simp [he, mkE])
  exact ⟨h1, by rw [h2.1]; decide, h2.2⟩

/-! ### Helper lemmas for the slicing budget -/

theorem sumLens_append (l1 l2 : List String) :
    sumLens (l1 ++ l2) = sumLens l1 + sumLens l2 := by
  simp [sumLens]

theorem fill_sum (max_chars : ℕ) (ls : List String) :
    ∀ u, u ≤ max_chars → u + sumLens (fill u max_chars ls) ≤ max_chars := by
  induction ls with
  | nil => intro u h; simpa [fill, sumLens] using h
  | cons line rest ih =>
    intro u h
    by_cases hc : max_chars < u + line.length
    · simpa [fill, hc, sumLens] using h
    · have h2 := ih (u + line.length) (not_lt.mp hc)
      simp only [fill, if_neg hc, sumLens, List.map_cons, List.sum_cons] at h2 ⊢
      omega

theorem fill_pre (max_chars : ℕ) (ls : List String) :
    ∀ u, ∃ t, fill u max_chars ls ++ t = ls := by
  induction ls with
  | nil => intro u; exact ⟨[], rfl⟩
  | cons line rest ih =>
    intro u
    by_cases hc : max_chars < u + line.length
    · exact ⟨line :: rest, by simp [fill, hc]⟩
    · obtain ⟨t, ht⟩ := ih (u + line.length)
      exact ⟨t, by simp [fill, hc, ht]⟩

theorem joinLines_length (l : List String) (h : l ≠ []) :
    (joinLines l).length = sumLens l + (l.length - 1) := by
  induction l with
  | nil => cases h rfl
  | cons a rest ih =>
    cases rest with
    | nil => simp [joinLines, sumLens]
    | cons b t =>
      have ih2 := ih (by simp)
      have hn : ("\n").length = 1 := rfl
      simp only [joinLines, String.length_append, hn, sumLens, List.map_cons,
        List.sum_cons, List.length_cons] at ih2 ⊢
      omega

theorem slicedLines_eq (st : ContextStore) (app : String) (max_chars : ℕ) :
    slicedLines st app max_chars =
      fill 0 max_chars ((get_by_source st app 20).map fmtSame) ++
        (if sumLens (fill 0 max_chars ((get_by_source st app 20).map fmtSame)) < max_chars
         then fill (sumLens (fill 0 max_chars ((get_by_source st app 20).map fmtSame)))
            max_chars
            (((get_recent st 30).filter (fun e => !(e.source_app == app))).map fmtCross)
         else []) := by
  simp only [slicedLines]
  split <;> simp

/-- C5 (amended): the slice is same-app lines (in order, a prefix of the
formatted same-app list) followed by cross-app lines (a prefix of the
formatted cross-app list); no line is truncated; the summed line lengths
never exceed `maxChars`, and the returned string adds exactly one newline
between consecutive lines, so its length is that sum plus (number of
lines − 1). -/
theorem sliced_context_budget_structure (st : ContextStore) (app : String)
    (max_chars : ℕ) :
    sumLens (slicedLines st app max_chars) ≤ max_chars ∧
    (slicedLines st app max_chars = [] → get_sliced_context st app max_chars = "") ∧
    (slicedLines st app max_chars ≠ [] →
      (get_sliced_context st app max_chars).length =
        sumLens (slicedLines st app max_chars) +
          ((slicedLines st app max_chars).length - 1)) ∧
    (∃ la lc, slicedLines st app max_chars = la ++ lc ∧
      (∃ t1, la ++ t1 = (get_by_source st app 20).map fmtSame) ∧
      (∃ t2, lc ++ t2 =
        ((get_recent st 30).filter (fun e => !(e.source_app == app))).map fmtCross)) := by
  refine ⟨?_, ?_, ?_, ?_⟩
  · rw [slicedLines_eq, sumLens_append]
    by_cases h : sumLens (fill 0 max_chars ((get_by_source st app 20).map fmtSame))
        < max_chars
    · rw [if_pos h]
      exact fill_sum max_chars _ _ (le_of_lt h)
    · rw [if_neg h]
      have := fill_sum max_chars ((get_by_source st app 20).map fmtSame) 0 (Nat.zero_le _)
      simpa [sumLens] using this
  · intro h
    simp [get_sliced_context, h, joinLines]
  · intro h
    rw [get_sliced_context, joinLines_length _ h]
  · rw [slicedLines_eq]
    refine ⟨_, _, rfl, fill_pre max_chars _ 0, ?_⟩
    by_cases h : sumLens (fill 0 max_chars ((get_by_source st app 20).map fmtSame))
        < max_chars
    · rw [if_pos h]
      exact fill_pre max_chars _ _
    · rw [if_neg h]
      exact ⟨_, List.nil_append _⟩

/-- C5 counterexample to the claim as stated: with `maxChars = 35` and
seven stored lines of five characters each, the returned string has length
41 — more than `maxChars` plus the length of any one formatted line (every
formatted line of this store, same-app or cross-app, has length 5), because
the six newline separators are not counted against the budget. -/
theorem sliced_context_budget_cex :
    (get_sliced_context stSeven "A" 35).length = 41 ∧
    (∀ e ∈ stSeven.entries, (fmtSame e).length = 5 ∧ (fmtCross e).length = 5) ∧
    35 + 5 < 41 := by decide

/-- C5 witness: the amended statement at a concrete one-entry store. -/
theorem sliced_context_budget_structure_witness :
    (sumLens (slicedLines ⟨[mkE 1 "A" "t" "hello" 1], 2⟩ "A" 100) ≤ 100 ∧
      (slicedLines ⟨[mkE 1 "A" "t" "hello" 1], 2⟩ "A" 100 = [] →
        get_sliced_context ⟨[mkE 1 "A" "t" "hello" 1], 2⟩ "A" 100 = "") ∧
      (slicedLines ⟨[mkE 1 "A" "t" "hello" 1], 2⟩ "A" 100 ≠ [] →
        (get_sliced_context ⟨[mkE 1 "A" "t" "hello" 1], 2⟩ "A" 100).length =
          sumLens (slicedLines ⟨[mkE 1 "A" "t" "hello" 1], 2⟩ "A" 100) +
            ((slicedLines ⟨[mkE 1 "A" "t" "hello" 1], 2⟩ "A" 100).length - 1)) ∧
      (∃ la lc, slicedLines ⟨[mkE 1 "A" "t" "hello" 1], 2⟩ "A" 100 = la ++ lc ∧
        (∃ t1, la ++ t1 =
          (get_by_source ⟨[mkE 1 "A" "t" "hello" 1], 2⟩ "A" 20).map fmtSame) ∧
        (∃ t2, lc ++ t2 =
          ((get_recent ⟨[mkE 1 "A" "t" "hello" 1], 2⟩ 30).filter
            (fun e => !(e.source_app == "A"))).map fmtCross))) ∧
    get_sliced_context ⟨[mkE 1 "A" "t" "hello" 1], 2⟩ "A" 100 = "[t] hello" :=
  ⟨sliced_context_budget_structure ⟨[mkE 1 "A" "t" "hello" 1], 2⟩ "A" 100, by decide⟩

/-! ### Helper lemmas for the response parser -/

theorem parseFrom_blank (p : String) (ps : List String) (i : ℕ)
    (hb : (pyStrip p).isEmpty = true) :
    parseFrom i (p :: ps) = parseFrom (i + 1) ps := by
  simp [parseFrom, hb]

theorem parseFrom_keep (p : String) (ps : List String) (i : ℕ)
    (hb : (pyStrip p).isEmpty = false) :
    parseFrom i (p :: ps) = ⟨pyStrip p, i⟩ :: parseFrom (i + 1) ps := by
  simp [parseFrom, hb]

theorem parseFrom_bounds (parts : List String) :
    ∀ i, ∀ s ∈ parseFrom i parts, i ≤ s.index ∧ s.index < i + parts.length := by
  induction parts with
  | nil => intro i s hs; simp [parseFrom] at hs
  | cons p ps ih =>
    intro i s hs
    cases hb : (pyStrip p).isEmpty with
    | true =>
      rw [parseFrom_blank p ps i hb] at hs
      have := ih (i + 1) s hs
      simp only [List.length_cons]
      omega
    | false =>
      rw [parseFrom_keep p ps i hb] at hs
      rcases List.mem_cons.mp hs with rfl | hs
      · simp
      · have := ih (i + 1) s hs
        simp only [List.length_cons]
        omega

theorem parseFrom_pairwise (parts : List String) :
    ∀ i, (parseFrom i parts).Pairwise (fun a b => a.index < b.index) := by
  induction parts with
  | nil => intro i; simp [parseFrom]
  | cons p ps ih =>
    intro i
    cases hb : (pyStrip p).isEmpty with
    | true => rw [parseFrom_blank p ps i hb]; exact ih (i + 1)
    | false =>
      rw [parseFrom_keep p ps i hb]
      refine List.pairwise_cons.mpr ⟨?_, ih (i + 1)⟩
      intro s hs
      have := (parseFrom_bounds ps (i + 1) s hs).1
      show i < s.index
      omega

theorem parseFrom_src (parts : List String) :
    ∀ i, ∀ s ∈ parseFrom i parts, ∃ p0, parts[s.index - i]? = some p0 ∧
      pyStrip p0 = s.text ∧ s.text ≠ "" := by
  induction parts with
  | nil => intro i s hs; simp [parseFrom] at hs
  | cons p ps ih =>
    intro i s hs
    cases hb : (pyStrip p).isEmpty with
    | true =>
      rw [parseFrom_blank p ps i hb] at hs
      obtain ⟨p0, hget, hstrip, hne⟩ := ih (i + 1) s hs
      have hi : i + 1 ≤ s.index := (parseFrom_bounds ps (i + 1) s hs).1
      have hk : s.index - i = (s.index - (i + 1)) + 1 := by omega
      exact ⟨p0, by rw [hk, List.getElem?_cons_succ]; exact hget, hstrip, hne⟩
    | false =>
      rw [parseFrom_keep p ps i hb] at hs
      rcases List.mem_cons.mp hs with rfl | hs
      · refine ⟨p, by simp, rfl, ?_⟩
        intro hcon
        have hcon2 : pyStrip p = "" := hcon
        rw [hcon2] at hb
        exact absurd hb (by decide)
      · obtain ⟨p0, hget, hstrip, hne⟩ := ih (i + 1) s hs
        have hi : i + 1 ≤ s.index := (parseFrom_bounds ps (i + 1) s hs).1
        have hk : s.index - i = (s.index - (i + 1)) + 1 := by omega
        exact ⟨p0, by rw [hk, List.getElem?_cons_succ]; exact hget, hstrip, hne⟩

theorem parseFrom_rank (parts : List String) :
    ∀ i, (∀ p ∈ parts, (pyStrip p).isEmpty = false) →
      (parseFrom i parts).length = parts.length ∧
      ∀ k (hk : k < (parseFrom i parts).length),
        ((parseFrom i parts).get ⟨k, hk⟩).index = i + k := by
  induction parts with
  | nil => intro i _; exact ⟨rfl, fun k hk => by simp [parseFrom] at hk⟩
  | cons p ps ih =>
    intro i h
    have hb : (pyStrip p).isEmpty = false := h p (List.mem_cons_self p ps)
    have ih2 := ih (i + 1) (fun q hq => h q (List.mem_cons_of_mem p hq))
    rw [parseFrom_keep p ps i hb]
    refine ⟨by simp [ih2.1], ?_⟩
    intro k hk
    match k with
    | 0 => simp
    | k + 1 =>
      have hk2 : k < (parseFrom (i + 1) ps).length := by
        simpa using Nat.lt_of_succ_lt_succ (by simpa using hk)
      have := ih2.2 k hk2
      simp only [List.get_cons_succ]
      rw [this]
      omega

/-- C7 (amended): in the batch `_parse_suggestions` returns, `index` is
the 0-based position of the suggestion's originating segment in the
delimiter-split of the raw response (blank segments are skipped but still
consume an index), so indices strictly increase and suggestions with equal
text keep the generator's order; whenever no segment of the split is
blank, the k-th suggestion of the returned list has `index = k`. -/
theorem parse_suggestions_indices (raw : String) :
    (parse_suggestions raw).Pairwise (fun a b => a.index < b.index) ∧
    (∀ s ∈ parse_suggestions raw, ∃ p0,
      (pySplit raw "---SUGGESTION---")[s.index]? = some p0 ∧
      pyStrip p0 = s.text ∧ s.text ≠ "") ∧
    ((∀ p ∈ pySplit raw "---SUGGESTION---", (pyStrip p).isEmpty = false) →
      (parse_suggestions raw).length = (pySplit raw "---SUGGESTION---").length ∧
      ∀ k (hk : k < (parse_suggestions raw).length),
        ((parse_suggestions raw).get ⟨k, hk⟩).index = k) := by
  refine ⟨parseFrom_pairwise _ 0, ?_, ?_⟩
  · intro s hs
    have := parseFrom_src (pySplit raw "---SUGGESTION---") 0 s hs
    simpa using this
  · intro h
    have := parseFrom_rank (pySplit raw "---SUGGESTION---") 0 h
    exact ⟨this.1, fun k hk => by simpa using this.2 k hk⟩

/-- C7 counterexample to the claim as stated: a response that begins with
the delimiter yields one suggestion whose `index` is 1, not its 0-based
rank in the returned list. -/
theorem parse_suggestions_rank_cex :
    parse_suggestions "---SUGGESTION---a" = [⟨"a", 1⟩] ∧
    (parse_suggestions "---SUGGESTION---a").map Suggestion.index ≠
      List.range (parse_suggestions "---SUGGESTION---a").length := by decide

/-- C7 witness: with no blank segment the indices are the 0-based ranks. -/
theorem parse_suggestions_indices_witness :
    ((parse_suggestions "First---SUGGESTION---Second").Pairwise
        (fun a b => a.index < b.index) ∧
      (∀ s ∈ parse_suggestions "First---SUGGESTION---Second", ∃ p0,
        (pySplit "First---SUGGESTION---Second" "---SUGGESTION---")[s.index]? = some p0 ∧
        pyStrip p0 = s.text ∧ s.text ≠ "") ∧
      ((∀ p ∈ pySplit "First---SUGGESTION---Second" "---SUGGESTION---",
          (pyStrip p).isEmpty = false) →
        (parse_suggestions "First---SUGGESTION---Second").length =
          (pySplit "First---SUGGESTION---Second" "---SUGGESTION---").length ∧
        ∀ k (hk : k < (parse_suggestions "First---SUGGESTION---Second").length),
          ((parse_suggestions "First---SUGGESTION---Second").get ⟨k, hk⟩).index = k)) ∧
    parse_suggestions "First---SUGGESTION---Second" = [⟨"First", 0⟩, ⟨"Second", 1⟩] :=
  ⟨parse_suggestions_indices "First---SUGGESTION---Second", by decide⟩

/-- C8: with a non-empty list, `move_selection` keeps the list and the
visibility, and sets the selection to `(selected_index + delta) mod len`:
the result is the in-range representative of that residue class, so
navigation wraps in both directions. -/
theorem move_selection_wraps (o : Overlay) (delta : ℤ) (h : o.suggestions ≠ []) :
    (o.move_selection delta).suggestions = o.suggestions ∧
    (o.move_selection delta).visible = o.visible ∧
    (o.move_selection delta).selected_index < o.suggestions.length ∧
    (((o.move_selection delta).selected_index : ℤ) % (o.suggestions.length : ℤ) =
      ((o.selected_index : ℤ) + delta) % (o.suggestions.length : ℤ)) := by
  have hne : o.suggestions.isEmpty = false := by
    simpa [List.isEmpty_iff] using h
  have hlen : 0 < o.suggestions.length := List.length_pos.mpr h
  have hlenz : (0 : ℤ) < (o.suggestions.length : ℤ) := by exact_mod_cast hlen
  have hmod_nonneg : 0 ≤ ((o.selected_index : ℤ) + delta) % (o.suggestions.length : ℤ) :=
    Int.emod_nonneg _ (by omega)
  have hmod_lt : ((o.selected_index : ℤ) + delta) % (o.suggestions.length : ℤ) <
      (o.suggestions.length : ℤ) := Int.emod_lt_of_pos _ hlenz
  have heq : o.move_selection delta =
      { o with selected_index :=
          (((o.selected_index : ℤ) + delta) % (o.suggestions.length : ℤ)).toNat } := by
    simp [Overlay.move_selection, hne]
  refine ⟨by rw [heq], by rw [heq], ?_, ?_⟩
  · rw [heq]
    exact (Int.toNat_lt hmod_nonneg).mpr hmod_lt
  · rw [heq]
    show (((((o.selected_index : ℤ) + delta) % (o.suggestions.length : ℤ)).toNat : ℤ))
        % (o.suggestions.length : ℤ) = _
    rw [Int.toNat_of_nonneg hmod_nonneg]
    exact Int.emod_emod_of_dvd _ dvd_rfl

/-- C8 witness: with a 3-item list and `selected_index = 0`,
`navigate(-1)` wraps to `selected_index = 2`, list and visibility kept. -/
theorem move_selection_wraps_witness :
    (ovThree.move_selection (-1)).selected_index = 2 ∧
    ((ovThree.move_selection (-1)).suggestions = ovThree.suggestions ∧
      (ovThree.move_selection (-1)).visible = ovThree.visible ∧
      (ovThree.move_selection (-1)).selected_index < ovThree.suggestions.length ∧
      (((ovThree.move_selection (-1)).selected_index : ℤ) % (ovThree.suggestions.length : ℤ) =
        ((ovThree.selected_index : ℤ) + (-1)) % (ovThree.suggestions.length : ℤ))) :=
  ⟨by decide, move_selection_wraps ovThree (-1) (by decide)⟩

/-- C9: `move_selection` on an empty suggestion list is a total no-op for
every delta: the guard returns before the modulo, so no division by the
zero length is ever attempted and the state is unchanged. -/
theorem move_selection_empty_noop (o : Overlay) (delta : ℤ)
    (h : o.suggestions = []) : o.move_selection delta = o := by
  simp [Overlay.move_selection, h]

/-- C9 witness: a concrete empty overlay is unchanged by `navigate(-7)`. -/
theorem move_selection_empty_noop_witness :
    Overlay.move_selection ⟨[], 5, false⟩ (-7) = ⟨[], 5, false⟩ :=
  move_selection_empty_noop ⟨[], 5, false⟩ (-7) rfl

/-- C1 (amended): result delivery carries no correlation token. Delivering
an empty result changes nothing; delivering any non-empty result
unconditionally overwrites `_current_suggestions` and shows the overlay
with that list (selection 0) — so of two overlapping dispatches, whichever
result is delivered last wins, even if its trigger was the older one. -/
theorem deliver_result_last_wins (s : AppState) (sugs : List Suggestion) :
    (sugs = [] → deliver_result s sugs = s) ∧
    (sugs ≠ [] →
      (deliver_result s sugs).current_suggestions = sugs ∧
      (deliver_result s sugs).overlay.suggestions = sugs ∧
      (deliver_result s sugs).overlay.selected_index = 0 ∧
      (deliver_result s sugs).overlay.visible = true) := by
  constructor
  · intro h
    simp [deliver_result, h]
  · intro h
    have hne : sugs.isEmpty = false := by simpa [List.isEmpty_iff] using h
    simp [deliver_result, Overlay.show, hne]

/-- C1 counterexample to the claim as stated: dispatch A (older) and B
(newer); B's result `[b]` is delivered first, then A's stale result `[a]`
arrives. The stale delivery is not discarded: it moves the UI-visible
state away from what B produced. -/
theorem deliver_stale_result_changes_state_cex :
    (deliver_result (deliver_result ⟨[], ⟨[], 0, false⟩⟩ [⟨"b", 0⟩])
        [⟨"a", 0⟩]).current_suggestions ≠
      (deliver_result ⟨[], ⟨[], 0, false⟩⟩ [⟨"b", 0⟩]).current_suggestions ∧
    (deliver_result ⟨[], ⟨[], 0, false⟩⟩ [⟨"b", 0⟩]).overlay.suggestions = [⟨"b", 0⟩] ∧
    (deliver_result (deliver_result ⟨[], ⟨[], 0, false⟩⟩ [⟨"b", 0⟩])
        [⟨"a", 0⟩]).overlay.suggestions = [⟨"a", 0⟩] := by decide

/-- C1 witness: the amended statement at a concrete state and list. -/
theorem deliver_result_last_wins_witness :
    (([] : List Suggestion) = [] →
      deliver_result ⟨[], ⟨[], 0, false⟩⟩ [] = ⟨[], ⟨[], 0, false⟩⟩) ∧
    (([⟨"hi", 0⟩] : List Suggestion) ≠ [] →
      (deliver_result ⟨[], ⟨[], 0, false⟩⟩ [⟨"hi", 0⟩]).current_suggestions = [⟨"hi", 0⟩] ∧
      (deliver_result ⟨[], ⟨[], 0, false⟩⟩ [⟨"hi", 0⟩]).overlay.suggestions = [⟨"hi", 0⟩] ∧
      (deliver_result ⟨[], ⟨[], 0, false⟩⟩ [⟨"hi", 0⟩]).overlay.selected_index = 0 ∧
      (deliver_result ⟨[], ⟨[], 0, false⟩⟩ [⟨"hi", 0⟩]).overlay.visible = true) :=
  ⟨(deliver_result_last_wins ⟨[], ⟨[], 0, false⟩⟩ []).1,
    (deliver_result_last_wins ⟨[], ⟨[], 0, false⟩⟩ [⟨"hi", 0⟩]).2⟩

/-- C6 counterexample to the claim as stated: a fresh engine — no request
was ever accepted, `_last_request_time = 0.0` — queried at `now = 0` with
a 500 ms debounce returns false, although the claim's "or no request was
ever accepted" disjunct says it must return true. -/
theorem can_request_never_cex :
    can_request ⟨"anthropic", 500⟩ engineInit 0 = false ∧
    engineInit.last_request_time = 0 := by
  constructor
  · norm_num [can_request, engineInit]
  · rfl

/-- C6 (amended): `can_request` is a pure function of the stored
timestamp, true iff `(now − lastAcceptedAt)·1000 ≥ debounce_ms`; "never
accepted" is encoded as `lastAcceptedAt = 0.0`, so a fresh engine reports
true exactly once `now·1000 ≥ debounce_ms` (always so for wall-clock
times). From a state in which a first non-blank call is accepted at `t1`:
a second call less than the interval later is rejected and changes no
state (exactly one accepted); a second call at least the interval later
passes the debounce check (both accepted). -/
theorem debounce_two_calls (cfg : Config) (st : EngineState) (t1 t2 : ℚ)
    (in1 in2 c1 c2 a1 a2 : String) (o1 o2 : GenOutcome)
    (hacc : can_request cfg st t1 = true)
    (h1 : (pyStrip in1).isEmpty = false) :
    (generate_suggestions cfg st t1 in1 c1 a1 o1).1.last_request_time = t1 ∧
    ((t2 - t1) * 1000 < cfg.debounce_ms →
      can_request cfg (generate_suggestions cfg st t1 in1 c1 a1 o1).1 t2 = false ∧
      generate_suggestions cfg (generate_suggestions cfg st t1 in1 c1 a1 o1).1
          t2 in2 c2 a2 o2 =
        ((generate_suggestions cfg st t1 in1 c1 a1 o1).1, [])) ∧
    (cfg.debounce_ms ≤ (t2 - t1) * 1000 →
      can_request cfg (generate_suggestions cfg st t1 in1 c1 a1 o1).1 t2 = true) ∧
    (∀ now : ℚ, cfg.debounce_ms ≤ now * 1000 →
      can_request cfg engineInit now = true) := by
  have hcommit : (generate_suggestions cfg st t1 in1 c1 a1 o1).1 = ⟨t1⟩ := by
    cases o1 <;>
      cases hp : (cfg.llm_provider == "anthropic" || cfg.llm_provider == "openai") <;>
        simp [generate_suggestions, hacc, h1, hp]
  refine ⟨by rw [hcommit], ?_, ?_, ?_⟩
  · intro hlt
    have hcr2 : can_request cfg (⟨t1⟩ : EngineState) t2 = false := by
      simp only [can_request, decide_eq_false_iff_not]
      exact not_le.mpr hlt
    rw [hcommit]
    exact ⟨hcr2, by simp [generate_suggestions, hcr2]⟩
  · intro hge
    rw [hcommit]
    simp only [can_request, decide_eq_true_eq]
    exact hge
  · intro now hge
    simp only [can_request, engineInit, decide_eq_true_eq]
    simpa using hge

/-- C6 witness: a first accepted call at `t = 1000` commits the timestamp;
a second call at the same time (0 ms < 500 ms later) is rejected with no
state change, while a call 1000 s later passes the check; and a fresh
engine at `t = 1000` passes the check. -/
theorem debounce_two_calls_witness :
    (generate_suggestions cfg500 engineInit 1000 "Hello" "" "App"
        GenOutcome.err).1.last_request_time = 1000 ∧
    can_request cfg500 (generate_suggestions cfg500 engineInit 1000 "Hello" "" "App"
        GenOutcome.err).1 1000 = false ∧
    generate_suggestions cfg500 (generate_suggestions cfg500 engineInit 1000 "Hello" ""
        "App" GenOutcome.err).1 1000 "World" "" "App" GenOutcome.err =
      ((generate_suggestions cfg500 engineInit 1000 "Hello" "" "App"
        GenOutcome.err).1, []) ∧
    can_request cfg500 (generate_suggestions cfg500 engineInit 1000 "Hello" "" "App"
        GenOutcome.err).1 2000 = true ∧
    can_request cfg500 engineInit 1000 = true := by
  have hacc : can_request cfg500 engineInit 1000 = true := by
    norm_num [can_request, engineInit, cfg500]
  have h1 : (pyStrip "Hello").isEmpty = false := by decide
  have A := debounce_two_calls cfg500 engineInit 1000 1000 "Hello" "World" "" "" "App"
    "App" GenOutcome.err GenOutcome.err hacc h1
  have B := debounce_two_calls cfg500 engineInit 1000 2000 "Hello" "World" "" "" "App"
    "App" GenOutcome.err GenOutcome.err hacc h1
  have hlt : ((1000 : ℚ) - 1000) * 1000 < cfg500.debounce_ms := by norm_num [cfg500]
  have hge : cfg500.debounce_ms ≤ ((2000 : ℚ) - 1000) * 1000 := by norm_num [cfg500]
  exact ⟨A.1, (A.2.1 hlt).1, (A.2.1 hlt).2, B.2.2.1 hge, hacc⟩

/-- C10: a call that passes the debounce check with non-blank input
commits `_last_request_time = now` before the provider is contacted, so
the window is consumed even when the provider raises or the configured
provider name is unrecognized (both yielding the empty list); a second
call within the interval of the failed one is then rejected and also
returns the empty list. -/
theorem generate_commits_debounce_on_failure (cfg : Config) (st : EngineState)
    (t1 t2 : ℚ) (in1 in2 c1 c2 a1 a2 : String) (o1 o2 : GenOutcome)
    (hacc : can_request cfg st t1 = true)
    (h1 : (pyStrip in1).isEmpty = false)
    (hfail : (cfg.llm_provider ≠ "anthropic" ∧ cfg.llm_provider ≠ "openai") ∨
      o1 = GenOutcome.err) :
    generate_suggestions cfg st t1 in1 c1 a1 o1 = (⟨t1⟩, []) ∧
    ((t2 - t1) * 1000 < cfg.debounce_ms →
      generate_suggestions cfg (⟨t1⟩ : EngineState) t2 in2 c2 a2 o2 =
        ((⟨t1⟩ : EngineState), [])) := by
  constructor
  · rcases hfail with ⟨hp1, hp2⟩ | rfl
    · have hp : (cfg.llm_provider == "anthropic" || cfg.llm_provider == "openai")
          = false := by
        simp [hp1, hp2]
      simp [generate_suggestions, hacc, h1, hp]
    · cases hp : (cfg.llm_provider == "anthropic" || cfg.llm_provider == "openai") <;>
        simp [generate_suggestions, hacc, h1, hp]
  · intro hlt
    have hcr : can_request cfg ⟨t1⟩ t2 = false := by
      simp only [can_request, decide_eq_false_iff_not]
      exact not_le.mpr hlt
    simp [generate_suggestions, hcr]

/-- C10 witness: an unrecognized provider (even with a well-formed
response available) and an anthropic-provider exception both consume the
window at `t = 1000`; a retry at the same time is rejected. -/
theorem generate_commits_debounce_on_failure_witness :
    generate_suggestions ⟨"nope", 500⟩ engineInit 1000 "Hello" "" "App"
        (GenOutcome.ok "X---SUGGESTION---Y") = (⟨1000⟩, []) ∧
    generate_suggestions ⟨"nope", 500⟩ (⟨1000⟩ : EngineState) 1000 "Hello" "" "App"
        (GenOutcome.ok "Z") = ((⟨1000⟩ : EngineState), []) ∧
    generate_suggestions ⟨"anthropic", 500⟩ engineInit 1000 "Hello" "" "App"
        GenOutcome.err = (⟨1000⟩, []) := by
  have A := generate_commits_debounce_on_failure ⟨"nope", 500⟩ engineInit 1000 1000
    "Hello" "Hello" "" "" "App" "App" (GenOutcome.ok "X---SUGGESTION---Y")
    (GenOutcome.ok "Z") (by norm_num [can_request, engineInit]) (by decide)
    (Or.inl (by constructor <;> decide))
  have B := generate_commits_debounce_on_failure ⟨"anthropic", 500⟩ engineInit 1000 1000
    "Hello" "Hello" "" "" "App" "App" GenOutcome.err GenOutcome.err
    (by norm_num [can_request, engineInit]) (by decide) (Or.inr rfl)
  exact ⟨A.1, A.2 (by norm_num), B.1⟩
